import Mathlib

/-!
Shallow embedding of the artifact/session cache layer and visualization
pipeline of `app_azure.py` (Databricks Genie SSO Teams App), together with
proofs of the spec-level claims about it.

Conventions of the embedding:
* Python dicts keyed by strings become association lists
  (`List (String × β)`) with Python dict semantics: lookup returns the
  value of the unique matching key, assignment overwrites in place
  (keeping the key position) or appends a fresh key at the end, which is
  exactly the insertion-order behaviour of CPython dicts.
* Python `float` timestamps and numeric cell values become `ℚ`; the
  claims under verification only involve exact small decimal arithmetic,
  where IEEE doubles and rationals agree.
* Fallible code (exceptions caught by `try/except`, missing keys) becomes
  `Option`.
* All definitions are computable and structurally recursive so concrete
  instances evaluate inside the kernel.
-/

/-- Python dict lookup `d.get(k)` on a string-keyed dict. -/
def alistGet? {β : Type} : List (String × β) → String → Option β
  | [], _ => none
  | (k0, v0) :: t, k => if k0 = k then some v0 else alistGet? t k

/-- Python dict assignment `d[k] = v`: overwrite in place, else append. -/
def alistSet {β : Type} : List (String × β) → String → β → List (String × β)
  | [], k, v => [(k, v)]
  | (k0, v0) :: t, k, v =>
    if k0 = k then (k0, v) :: t else (k0, v0) :: alistSet t k v

/-- Python membership test `k in d`. -/
def alistContains {β : Type} (d : List (String × β)) (k : String) : Bool :=
  (alistGet? d k).isSome

theorem alistGet?_alistSet_self {β : Type} (d : List (String × β)) (k : String) (v : β) :
    alistGet? (alistSet d k v) k = some v := by
  induction d with
  | nil => simp [alistSet, alistGet?]
  | cons h t ih =>
    obtain ⟨k0, v0⟩ := h
    by_cases hk : k0 = k
    · simp [alistSet, alistGet?, hk]
    · simp [alistSet, alistGet?, hk, ih]

/-!
## Token Cache (`UserTokenManager`, app_azure.py lines 139-212)

`exchange_for_databricks_token` consults the per-user cache
`self.user_tokens : Dict[str, {token, expires_at}]`; a cached entry is
used when `expires_at > datetime.now().timestamp()`.  Otherwise the MSAL
on-behalf-of exchange (an external collaborator) runs: on a result with
an `access_token` the entry `{token, now + expires_in - 60}` is stored
and the token returned; on an error result, or on an exception, the
function logs and returns `None` without touching the cache.

The external collaborator is a parameter: `OboResult` is what one call
to `msal_app.acquire_token_on_behalf_of` would produce.  The returned
`Bool` records whether that external call was performed at all.
-/

/-- One entry of `self.user_tokens`: `{token, expires_at}`. -/
structure TokenEntry where
  token : String
  expires_at : ℚ
deriving DecidableEq, Repr

/-- The `self.user_tokens` dict: user id to cached entry. -/
abbrev TokenCache := List (String × TokenEntry)

/-- Outcome of the external MSAL on-behalf-of call: a result dict with an
`access_token` plus `expires_in`, a result dict without one (error), or a
raised exception. -/
inductive OboResult where
  | ok (access_token : String) (expires_in : ℚ)
  | err (description : String)
  | exc (message : String)
deriving DecidableEq, Repr

/-- The cache-hit test of lines 174-175:
`cached and cached.get('expires_at', 0) > datetime.now().timestamp()`. -/
def cacheHitB (cache : TokenCache) (user_id : String) (now : ℚ) : Bool :=
  match alistGet? cache user_id with
  | some e => decide (now < e.expires_at)
  | none => false

/-- The non-cached branch of `exchange_for_databricks_token`
(lines 179-206): perform the external OBO exchange; on success cache
`{token, now + expires_in - 60}` and return the token, otherwise return
`None` leaving the cache as it was. -/
def oboBranch (cache : TokenCache) (user_id : String) (now : ℚ) (obo : OboResult) :
    Option String × TokenCache × Bool :=
  match obo with
  | .ok tok exp => (some tok, alistSet cache user_id ⟨tok, now + exp - 60⟩, true)
  | .err _ => (none, cache, true)
  | .exc _ => (none, cache, true)

/-- `UserTokenManager.exchange_for_databricks_token` (lines 162-206),
with the wall clock and the external exchange outcome as parameters.
Returns (returned token, cache afterwards, whether the external call ran). -/
def exchange_for_databricks_token (cache : TokenCache) (user_id : String)
    (now : ℚ) (obo : OboResult) : Option String × TokenCache × Bool :=
  match alistGet? cache user_id with
  | some e =>
    if now < e.expires_at then (some e.token, cache, false)
    else oboBranch cache user_id now obo
  | none => oboBranch cache user_id now obo

/-- `UserTokenManager.clear_user_token` (lines 208-212). -/
def clear_user_token (cache : TokenCache) (user_id : String) : TokenCache :=
  cache.filter (fun p => p.1 ≠ user_id)

/-- Claim C3: if `exchange` is called for a subject with no usable cached
token and the external OBO exchange succeeds, and it is then called again
while the stored expiry `now₁ + expires_in - 60` is still in the future,
then the second call returns the cached token, performs no external call,
and leaves the cache untouched — across the two calls the external
exchange runs exactly once. -/
theorem exchange_twice_within_ttl (cache : TokenCache) (uid tok : String)
    (exp now1 now2 : ℚ) (obo2 : OboResult)
    (hmiss : cacheHitB cache uid now1 = false)
    (hfresh : now2 < now1 + exp - 60) :
    (exchange_for_databricks_token cache uid now1 (.ok tok exp)).1 = some tok ∧
    (exchange_for_databricks_token cache uid now1 (.ok tok exp)).2.2 = true ∧
    exchange_for_databricks_token
        (exchange_for_databricks_token cache uid now1 (.ok tok exp)).2.1 uid now2 obo2 =
      (some tok, (exchange_for_databricks_token cache uid now1 (.ok tok exp)).2.1, false) := by
  have hstate : (exchange_for_databricks_token cache uid now1 (.ok tok exp)).2.1 =
      alistSet cache uid ⟨tok, now1 + exp - 60⟩ := by
    unfold exchange_for_databricks_token
    unfold cacheHitB at hmiss
    cases hget : alistGet? cache uid with
    | none => simp [hget, oboBranch]
    | some e =>
      rw [hget] at hmiss
      simp only [decide_eq_false_iff_not] at hmiss
      simp [hget, hmiss, oboBranch]
  have hfst : (exchange_for_databricks_token cache uid now1 (.ok tok exp)).1 = some tok := by
    unfold exchange_for_databricks_token
    unfold cacheHitB at hmiss
    cases hget : alistGet? cache uid with
    | none => simp [hget, oboBranch]
    | some e =>
      rw [hget] at hmiss
      simp only [decide_eq_false_iff_not] at hmiss
      simp [hget, hmiss, oboBranch]
  have hext : (exchange_for_databricks_token cache uid now1 (.ok tok exp)).2.2 = true := by
    unfold exchange_for_databricks_token
    unfold cacheHitB at hmiss
    cases hget : alistGet? cache uid with
    | none => simp [hget, oboBranch]
    | some e =>
      rw [hget] at hmiss
      simp only [decide_eq_false_iff_not] at hmiss
      simp [hget, hmiss, oboBranch]
  refine ⟨hfst, hext, ?_⟩
  rw [hstate]
  unfold exchange_for_databricks_token
  rw [alistGet?_alistSet_self]
  simp [hfresh]

/-- Witness for claim C3 at a concrete input: empty cache, exchange at
time 0 returning a token valid 3600 s, second call at time 100. -/
theorem exchange_twice_within_ttl_witness :
    cacheHitB [] "u" 0 = false ∧ (100 : ℚ) < 0 + 3600 - 60 ∧
    ((exchange_for_databricks_token [] "u" 0 (.ok "T" 3600)).1 = some "T" ∧
     (exchange_for_databricks_token [] "u" 0 (.ok "T" 3600)).2.2 = true ∧
     exchange_for_databricks_token
         (exchange_for_databricks_token [] "u" 0 (.ok "T" 3600)).2.1 "u" 100 (.exc "boom") =
       (some "T", (exchange_for_databricks_token [] "u" 0 (.ok "T" 3600)).2.1, false)) :=
  ⟨by decide, by norm_num,
    exchange_twice_within_ttl [] "u" "T" 3600 0 100 (.exc "boom") (by decide) (by norm_num)⟩

/-- Claim C9, counterexample: the claim says that after a failed exchange
the cache holds no entry for the subject.  With a cached entry for "u"
already expired (expires_at 10 ≤ now 20), a failed exchange returns
`None` but the stale entry is still present afterwards. -/
theorem failed_exchange_keeps_stale_entry :
    (exchange_for_databricks_token [("u", ⟨"oldtok", 10⟩)] "u" 20 (.err "denied")).1 = none ∧
    alistGet?
        (exchange_for_databricks_token [("u", ⟨"oldtok", 10⟩)] "u" 20 (.err "denied")).2.1
        "u" = some ⟨"oldtok", 10⟩ := by
  decide

/-- Claim C9 as amended: whenever the external OBO exchange actually runs
(no cache hit) and fails — error result or exception — `exchange` returns
`None` and leaves the cache exactly as it was: it adds no entry, but a
pre-existing (necessarily expired) entry for the subject remains. -/
theorem failed_exchange_leaves_cache_unchanged (cache : TokenCache) (uid : String)
    (now : ℚ) (d : String) (hmiss : cacheHitB cache uid now = false) :
    exchange_for_databricks_token cache uid now (.err d) = (none, cache, true) ∧
    exchange_for_databricks_token cache uid now (.exc d) = (none, cache, true) := by
  unfold exchange_for_databricks_token
  unfold cacheHitB at hmiss
  cases hget : alistGet? cache uid with
  | none => simp [hget, oboBranch]
  | some e =>
    rw [hget] at hmiss
    simp only [decide_eq_false_iff_not] at hmiss
    simp [hget, hmiss, oboBranch]

/-- Witness for the amended claim C9 at a concrete input: the cache holds
an expired entry for "u", the exchange fails, the cache is unchanged. -/
theorem failed_exchange_leaves_cache_unchanged_witness :
    cacheHitB [("u", ⟨"old", 10⟩)] "u" 20 = false ∧
    (exchange_for_databricks_token [("u", ⟨"old", 10⟩)] "u" 20 (.err "denied") =
      (none, [("u", ⟨"old", 10⟩)], true) ∧
     exchange_for_databricks_token [("u", ⟨"old", 10⟩)] "u" 20 (.exc "denied") =
      (none, [("u", ⟨"old", 10⟩)], true)) :=
  ⟨by decide, failed_exchange_leaves_cache_unchanged [("u", ⟨"old", 10⟩)] "u" 20 "denied" (by decide)⟩

/-!
## Artifact Store (`GenieBot`, app_azure.py lines 885-937)

`_store_result` and `store_chart` each keep a CPython dict (insertion
ordered) plus a private counter.  A put increments the counter, inserts
under the fresh key `f"result_{n}"` / `f"chart_{n}"`, and, when the dict
exceeds its capacity (50 results, 100 charts), deletes
`list(d.keys())[:-cap]` — every key but the last `cap` in insertion
order.  Counters are never reset, so keys are never reused.

`natDec n` is the decimal rendering of a natural number, as produced by
the Python f-string for a non-negative int; it is defined with explicit
fuel so that it evaluates inside the kernel.
-/

/-- The decimal digit character for `d < 10` (codepoint 48 + d). -/
def digitChar10 (d : Nat) : Char := Char.ofNat (48 + d)

/-- Fuel-driven decimal digit list of a natural number (most significant
first); `natDecAux f n` is correct whenever `n ≤ f`. -/
def natDecAux : Nat → Nat → List Char
  | 0, _ => []
  | _ + 1, 0 => []
  | f + 1, n + 1 => natDecAux f ((n + 1) / 10) ++ [digitChar10 ((n + 1) % 10)]

/-- Decimal rendering of a natural number, as in the Python f-string. -/
def natDec (n : Nat) : String := if n = 0 then "0" else ⟨natDecAux n n⟩

/-- The key `f"result_{n}"` (resp. `f"chart_{n}"`): prefix plus decimal
counter value. -/
def mkId (pfx : String) (n : Nat) : String := pfx ++ natDec n

/-- Reads a digit string back as a number; left inverse of `natDec`. -/
def charsVal (l : List Char) : Nat := l.foldl (fun a c => 10 * a + (c.toNat - 48)) 0

/-- The counter value carried by an id issued under prefix `pfx`. -/
def idNum (pfx id : String) : Nat := charsVal (id.data.drop pfx.length)

theorem charsVal_append (l : List Char) (c : Char) :
    charsVal (l ++ [c]) = 10 * charsVal l + (c.toNat - 48) := by
  simp [charsVal, List.foldl_append]

theorem digitChar10_toNat : ∀ d, d < 10 → (digitChar10 d).toNat = 48 + d := by
  decide

theorem charsVal_natDecAux : ∀ f n, n ≤ f → charsVal (natDecAux f n) = n := by
  intro f
  induction f with
  | zero =>
    intro n hn
    interval_cases n
    simp [natDecAux, charsVal]
  | succ f ih =>
    intro n hn
    match n with
    | 0 => simp [natDecAux, charsVal]
    | m + 1 =>
      have hdiv : (m + 1) / 10 ≤ f := by
        have := Nat.div_lt_self (Nat.succ_pos m) (by norm_num : 1 < 10)
        omega
      rw [natDecAux, charsVal_append, ih _ hdiv,
        digitChar10_toNat _ (Nat.mod_lt _ (by norm_num))]
      omega

theorem charsVal_natDec (n : Nat) : charsVal (natDec n).data = n := by
  by_cases h : n = 0
  · subst h; decide
  · rw [natDec, if_neg h]
    exact charsVal_natDecAux n n le_rfl

theorem natDec_injective : Function.Injective natDec := by
  intro m n h
  have := congrArg (fun s => charsVal s.data) h
  simpa [charsVal_natDec] using this

theorem mkId_inj (pfx : String) {m n : Nat} (h : mkId pfx m = mkId pfx n) : m = n := by
  have hd : (mkId pfx m).data = (mkId pfx n).data := congrArg String.data h
  simp only [mkId, String.data_append] at hd
  have h2 := List.append_cancel_left hd
  have h3 := congrArg charsVal h2
  rwa [charsVal_natDec, charsVal_natDec] at h3

/-- The numeric part of `mkId pfx n` reads back as `n`. -/
theorem idNum_mkId (pfx : String) (n : Nat) : idNum pfx (mkId pfx n) = n := by
  have : (mkId pfx n).data = pfx.data ++ (natDec n).data := by
    simp [mkId, String.data_append]
  rw [idNum, this]
  have hlen : pfx.length = pfx.data.length := rfl
  rw [hlen, List.drop_left, charsVal_natDec]

/-- The mutable state behind one bounded cache: the insertion-ordered
dict of entries and the private counter. -/
structure Store (α : Type) where
  entries : List (String × α)
  counter : Nat
deriving DecidableEq

/-- Shared body of `GenieBot._store_result` (lines 912-922) and
`GenieBot.store_chart` (lines 924-934): bump the counter, insert the
entry under the fresh key, and if the dict now exceeds `cap` delete
`list(keys)[:-cap]`, i.e. drop all but the last `cap` insertions. -/
def boundedPut {α : Type} (cap : Nat) (pfx : String) (st : Store α) (v : α) :
    String × Store α :=
  let c := st.counter + 1
  let id := mkId pfx c
  let es := st.entries ++ [(id, v)]
  if es.length > cap then (id, ⟨es.drop (es.length - cap), c⟩) else (id, ⟨es, c⟩)

/-- `GenieBot._store_result`: capacity 50, keys `result_{n}`. -/
def store_result {α : Type} (st : Store α) (v : α) : String × Store α :=
  boundedPut 50 "result_" st v

/-- `GenieBot.store_chart`: capacity 100, keys `chart_{n}`. -/
def store_chart {α : Type} (st : Store α) (v : α) : String × Store α :=
  boundedPut 100 "chart_" st v

/-- `self.query_results.get(result_id)` / `GenieBot.get_chart`. -/
def storeGet {α : Type} (st : Store α) (id : String) : Option α :=
  alistGet? st.entries id

/-- State after a sequence of puts. -/
def putManySt {α : Type} (cap : Nat) (pfx : String) : Store α → List α → Store α
  | st, [] => st
  | st, v :: vs => putManySt cap pfx (boundedPut cap pfx st v).2 vs

/-- Ids issued across a sequence of puts, in call order. -/
def putManyIds {α : Type} (cap : Nat) (pfx : String) : Store α → List α → List String
  | _, [] => []
  | st, v :: vs => (boundedPut cap pfx st v).1 :: putManyIds cap pfx (boundedPut cap pfx st v).2 vs

/-- The annotated insertion sequence: values of `vs` keyed by the ids a
store with counter `k` would issue for them, in insertion order. -/
def annotSeq {α : Type} (pfx : String) : Nat → List α → List (String × α)
  | _, [] => []
  | k, v :: vs => (mkId pfx (k + 1), v) :: annotSeq pfx (k + 1) vs

theorem annotSeq_length {α : Type} (pfx : String) :
    ∀ (vs : List α) (k : Nat), (annotSeq pfx k vs).length = vs.length := by
  intro vs
  induction vs with
  | nil => intro k; simp [annotSeq]
  | cons v vs ih => intro k; simp [annotSeq, ih]

theorem annotSeq_drop {α : Type} (pfx : String) :
    ∀ (vs : List α) (m k : Nat),
      (annotSeq pfx k vs).drop m = annotSeq pfx (k + m) (vs.drop m) := by
  intro vs
  induction vs with
  | nil => intro m k; simp [annotSeq]
  | cons v vs ih =>
    intro m k
    match m with
    | 0 => simp [annotSeq]
    | m + 1 =>
      rw [annotSeq, List.drop_succ_cons, List.drop_succ_cons, ih]
      ring_nf

/-- Looking up an id whose counter is at most `k` in a tail of the
insertion sequence that starts after counter `k` finds nothing: evicted
ids are never resurrected by later insertions. -/
theorem alistGet?_annotSeq_none {α : Type} (pfx : String) :
    ∀ (vs : List α) (k m : Nat), m ≤ k →
      alistGet? (annotSeq pfx k vs) (mkId pfx m) = none := by
  intro vs
  induction vs with
  | nil => intro k m _; simp [annotSeq, alistGet?]
  | cons v vs ih =>
    intro k m hm
    rw [annotSeq, alistGet?]
    have hne : ¬ mkId pfx (k + 1) = mkId pfx m := by
      intro h
      have := mkId_inj pfx h
      omega
    rw [if_neg hne]
    exact ih (k + 1) m (by omega)

/-- Main invariant: starting from a dict `E` of at most `cap` entries and
counter `k`, a sequence of puts leaves exactly the last `cap` entries of
`E` followed by the annotated insertion sequence, and advances the
counter by one per put. -/
theorem putManySt_eq {α : Type} (cap : Nat) (pfx : String) :
    ∀ (vs : List α) (k : Nat) (E : List (String × α)), E.length ≤ cap →
      putManySt cap pfx ⟨E, k⟩ vs =
        ⟨(E ++ annotSeq pfx k vs).drop (E.length + vs.length - cap), k + vs.length⟩ := by
  intro vs
  induction vs with
  | nil =>
    intro k E hE
    simp [putManySt, annotSeq, Nat.sub_eq_zero_of_le hE]
  | cons v vs ih =>
    intro k E hE
    rw [putManySt, annotSeq]
    have hassoc : E ++ (mkId pfx (k + 1), v) :: annotSeq pfx (k + 1) vs =
        (E ++ [(mkId pfx (k + 1), v)]) ++ annotSeq pfx (k + 1) vs := by
      simp
    rw [hassoc]
    simp only [List.length_cons]
    by_cases hover : (E ++ [(mkId pfx (k + 1), v)]).length > cap
    · have hElen : E.length = cap := by
        simp at hover
        omega
      have hstep : (boundedPut cap pfx (⟨E, k⟩ : Store α) v).2 =
          ⟨(E ++ [(mkId pfx (k + 1), v)]).drop 1, k + 1⟩ := by
        simp only [boundedPut, if_pos hover]
        simp [hElen]
      rw [hstep, ih (k + 1) _ (by simp [hElen])]
      simp only [Store.mk.injEq]
      constructor
      · have e1 : ((E ++ [(mkId pfx (k + 1), v)]) ++ annotSeq pfx (k + 1) vs).drop 1 =
            (E ++ [(mkId pfx (k + 1), v)]).drop 1 ++ annotSeq pfx (k + 1) vs :=
          List.drop_append_of_le_length (by simp)
        have hlen1 : ((E ++ [(mkId pfx (k + 1), v)]).drop 1).length = cap := by
          simp [hElen]
        rw [hlen1, hElen]
        have h2 : cap + vs.length - cap = vs.length := by omega
        have h3 : cap + (vs.length + 1) - cap = vs.length + 1 := by omega
        rw [h2, h3, ← e1, List.drop_drop, Nat.add_comm]
      · omega
    · have hstep : (boundedPut cap pfx (⟨E, k⟩ : Store α) v).2 =
          ⟨E ++ [(mkId pfx (k + 1), v)], k + 1⟩ := by
        simp only [boundedPut, if_neg hover]
      have hE1 : (E ++ [(mkId pfx (k + 1), v)]).length ≤ cap := by
        simp at hover ⊢
        omega
      rw [hstep, ih (k + 1) _ hE1]
      simp only [Store.mk.injEq, List.length_append, List.length_cons, List.length_nil]
      constructor
      · have h4 : E.length + (0 + 1) + vs.length - cap = E.length + (vs.length + 1) - cap := by
          omega
        rw [h4]
      · omega

theorem boundedPut_fst {α : Type} (cap : Nat) (pfx : String) (st : Store α) (v : α) :
    (boundedPut cap pfx st v).1 = mkId pfx (st.counter + 1) := by
  simp only [boundedPut]
  split <;> rfl

theorem boundedPut_counter {α : Type} (cap : Nat) (pfx : String) (st : Store α) (v : α) :
    (boundedPut cap pfx st v).2.counter = st.counter + 1 := by
  simp only [boundedPut]
  split <;> rfl

/-- The ids issued by a sequence of puts are exactly the keys of the
annotated insertion sequence, independent of eviction. -/
theorem putManyIds_eq {α : Type} (cap : Nat) (pfx : String) :
    ∀ (vs : List α) (st : Store α),
      putManyIds cap pfx st vs = (annotSeq pfx st.counter vs).map Prod.fst := by
  intro vs
  induction vs with
  | nil => intro st; simp [putManyIds, annotSeq]
  | cons v vs ih =>
    intro st
    rw [putManyIds, annotSeq, List.map_cons, boundedPut_fst, ih, boundedPut_counter]

theorem annotSeq_keys {α : Type} (pfx : String) :
    ∀ (vs : List α) (k : Nat),
      (annotSeq pfx k vs).map Prod.fst =
        (List.range vs.length).map (fun i => mkId pfx (k + i + 1)) := by
  intro vs
  induction vs with
  | nil => intro k; simp [annotSeq]
  | cons v vs ih =>
    intro k
    rw [annotSeq, List.map_cons, ih, List.length_cons, List.range_succ_eq_map,
      List.map_cons, List.map_map]
    refine congrArg₂ _ (by simp) ?_
    apply List.map_congr_left
    intro i _
    simp only [Function.comp_apply]
    congr 1
    omega

/-- Shared FIFO-bound invariant for one bounded store. -/
theorem fifo_store_invariant {α : Type} (cap : Nat) (pfx : String) (vs : List α) :
    (putManySt cap pfx (⟨[], 0⟩ : Store α) vs).entries =
        (annotSeq pfx 0 vs).drop (vs.length - cap) ∧
    (cap ≤ vs.length → (putManySt cap pfx (⟨[], 0⟩ : Store α) vs).entries.length = cap) ∧
    ∀ j, j + cap < vs.length →
      storeGet (putManySt cap pfx (⟨[], 0⟩ : Store α) vs) (mkId pfx (j + 1)) = none := by
  have hmain := putManySt_eq cap pfx vs 0 [] (by simp)
  have hent : (putManySt cap pfx (⟨[], 0⟩ : Store α) vs).entries =
      (annotSeq pfx 0 vs).drop (vs.length - cap) := by
    rw [hmain]
    simp
  refine ⟨hent, ?_, ?_⟩
  · intro hcap
    rw [hent, List.length_drop, annotSeq_length]
    omega
  · intro j hj
    rw [storeGet, hent, annotSeq_drop]
    exact alistGet?_annotSeq_none pfx _ _ _ (by omega)

/-- Shared monotone-unique-ids invariant for one bounded store. -/
theorem store_ids_invariant {α : Type} (cap : Nat) (pfx : String) (vs : List α) :
    (putManyIds cap pfx (⟨[], 0⟩ : Store α) vs).Pairwise
        (fun a b => idNum pfx a < idNum pfx b) ∧
    (putManyIds cap pfx (⟨[], 0⟩ : Store α) vs).Pairwise (· ≠ ·) := by
  have hids : putManyIds cap pfx (⟨[], 0⟩ : Store α) vs =
      (List.range vs.length).map (fun i => mkId pfx (0 + i + 1)) := by
    rw [putManyIds_eq, annotSeq_keys]
  have hinc : (putManyIds cap pfx (⟨[], 0⟩ : Store α) vs).Pairwise
      (fun a b => idNum pfx a < idNum pfx b) := by
    rw [hids, List.pairwise_map]
    refine (List.pairwise_lt_range vs.length).imp ?_
    intro i j hij
    rw [idNum_mkId, idNum_mkId]
    omega
  refine ⟨hinc, hinc.imp ?_⟩
  intro a b hab heq
  rw [heq] at hab
  exact lt_irrefl _ hab

/-- Claim C1: for every sequence of puts, the result store (capacity 50,
`_store_result`) and the chart store (capacity 100, `store_chart`) retain
exactly the capacity-many most-recently-inserted entries in insertion
order — the annotated insertion sequence with its oldest `n - cap`
entries dropped — and once capacity is exceeded the size is pinned to the
capacity while `get` on the id of any earlier, evicted insertion (the
`j`-th put, issued id `mkId pfx (j+1)`) returns `None` (NotFound). -/
theorem artifact_store_fifo_eviction {α : Type} (vs : List α) :
    ((putManySt 50 "result_" (⟨[], 0⟩ : Store α) vs).entries =
        (annotSeq "result_" 0 vs).drop (vs.length - 50) ∧
     (50 ≤ vs.length → (putManySt 50 "result_" (⟨[], 0⟩ : Store α) vs).entries.length = 50) ∧
     (∀ j, j + 50 < vs.length →
        storeGet (putManySt 50 "result_" (⟨[], 0⟩ : Store α) vs) (mkId "result_" (j + 1)) = none)) ∧
    ((putManySt 100 "chart_" (⟨[], 0⟩ : Store α) vs).entries =
        (annotSeq "chart_" 0 vs).drop (vs.length - 100) ∧
     (100 ≤ vs.length → (putManySt 100 "chart_" (⟨[], 0⟩ : Store α) vs).entries.length = 100) ∧
     (∀ j, j + 100 < vs.length →
        storeGet (putManySt 100 "chart_" (⟨[], 0⟩ : Store α) vs) (mkId "chart_" (j + 1)) = none)) :=
  ⟨fifo_store_invariant 50 "result_" vs, fifo_store_invariant 100 "chart_" vs⟩

/-- Witness for claim C1: 51 puts into the result store and 101 puts into
the chart store; the stores are pinned at 50/100 entries and the first
issued id is no longer found. -/
theorem artifact_store_fifo_eviction_witness :
    (50 ≤ (List.replicate 51 (0 : Nat)).length ∧
     (putManySt 50 "result_" (⟨[], 0⟩ : Store Nat) (List.replicate 51 0)).entries.length = 50 ∧
     storeGet (putManySt 50 "result_" (⟨[], 0⟩ : Store Nat) (List.replicate 51 0))
       (mkId "result_" 1) = none) ∧
    (100 ≤ (List.replicate 101 (0 : Nat)).length ∧
     (putManySt 100 "chart_" (⟨[], 0⟩ : Store Nat) (List.replicate 101 0)).entries.length = 100 ∧
     storeGet (putManySt 100 "chart_" (⟨[], 0⟩ : Store Nat) (List.replicate 101 0))
       (mkId "chart_" 1) = none) :=
  ⟨⟨by decide, ((artifact_store_fifo_eviction (List.replicate 51 0)).1).2.1 (by decide),
     ((artifact_store_fifo_eviction (List.replicate 51 0)).1).2.2 0 (by decide)⟩,
   ⟨by decide, ((artifact_store_fifo_eviction (List.replicate 101 0)).2).2.1 (by decide),
     ((artifact_store_fifo_eviction (List.replicate 101 0)).2).2.2 0 (by decide)⟩⟩

/-- Claim C2: across any sequence of puts on either store, the issued ids
carry strictly increasing counter values and are pairwise distinct — no
id is ever issued twice in a process lifetime, eviction notwithstanding
(the counter is never reset). -/
theorem put_ids_strictly_increasing {α : Type} (vs : List α) :
    ((putManyIds 50 "result_" (⟨[], 0⟩ : Store α) vs).Pairwise
        (fun a b => idNum "result_" a < idNum "result_" b) ∧
     (putManyIds 50 "result_" (⟨[], 0⟩ : Store α) vs).Pairwise (· ≠ ·)) ∧
    ((putManyIds 100 "chart_" (⟨[], 0⟩ : Store α) vs).Pairwise
        (fun a b => idNum "chart_" a < idNum "chart_" b) ∧
     (putManyIds 100 "chart_" (⟨[], 0⟩ : Store α) vs).Pairwise (· ≠ ·)) :=
  ⟨store_ids_invariant 50 "result_" vs, store_ids_invariant 100 "chart_" vs⟩

/-!
## Visualization Spec Parser (`parse_viz_spec`, app_azure.py lines 437-488)

The function searches for the first `[VIZ_START] ... [VIZ_END]` block
(`re.search` with `DOTALL | IGNORECASE`, lazy body, hence the leftmost
start marker followed by the earliest end marker).  The stripped block
body is parsed either line-by-line (when it contains a newline: split
each line at the first colon, lower-cased trimmed key, trimmed value) or
by one regex per known field
`rf"{field}\s*:\s*(.+?)(?=\s+(?:{lookahead})\s*:|$)"` with the other six
field names as the stop-lookahead.  If any of chart_type / x_axis /
y_axis is absent the whole parse is discarded and the original text is
returned untouched; otherwise `re.sub` deletes every block occurrence
from the text and the result is stripped.

The regex behaviour is embedded operationally: matching is
case-insensitive, `\s*` before `:` is deterministic (greedy whitespace
followed by a non-whitespace literal), `\s*` after `:` backtracks from
longest to shortest, `(.+?)` is lazy (shortest body, at least one
character, never across a newline), and `$` accepts the end of the block
or a lone trailing newline.  All recursions are fuelled or structural so
concrete inputs evaluate in the kernel.
-/

/-- Python `str.strip()` whitespace class (ASCII part). -/
def pyIsWs (c : Char) : Bool :=
  c = ' ' || c = '\t' || c = '\n' || c = '\r' || c = '\x0b' || c = '\x0c'

/-- Python `str.strip()`: remove leading and trailing whitespace. -/
def pyStrip (l : List Char) : List Char :=
  ((l.dropWhile pyIsWs).reverse.dropWhile pyIsWs).reverse

/-- Case-insensitive character comparison (`re.IGNORECASE`). -/
def lcEq (a b : Char) : Bool := a.toLower = b.toLower

/-- Does `pat` match at the head of `s`, case-insensitively? -/
def isPrefixCI : List Char → List Char → Bool
  | [], _ => true
  | _ :: _, [] => false
  | p :: ps, c :: cs => lcEq p c && isPrefixCI ps cs

/-- Index of the first case-insensitive occurrence of `pat` in `s`. -/
def findCI (pat : List Char) : List Char → Option Nat
  | [] => if isPrefixCI pat [] then some 0 else none
  | c :: t => if isPrefixCI pat (c :: t) then some 0 else (findCI pat t).map (· + 1)

def vizStartMarker : List Char := "[VIZ_START]".toList

def vizEndMarker : List Char := "[VIZ_END]".toList

/-- First match of `\[VIZ_START\](.*?)\[VIZ_END\]` (DOTALL, IGNORECASE):
the position `p` of the leftmost start marker and the length `r` of the
lazy body ending at the earliest later end marker.  If the first start
marker has no end marker after it then no later one has either, so the
whole search fails. -/
def findBlockOnce (s : List Char) : Option (Nat × Nat) :=
  match findCI vizStartMarker s with
  | none => none
  | some p =>
    match findCI vizEndMarker (s.drop (p + 11)) with
    | none => none
    | some r => some (p, r)

/-- The stripped body of the first directive block, when one exists
(line 458: `match.group(1).strip()`). -/
def vizBlockOf (s : List Char) : Option (List Char) :=
  (findBlockOnce s).map (fun pr => pyStrip ((s.drop (pr.1 + 11)).take pr.2))

/-- `re.sub(pattern, '', text, flags=DOTALL | IGNORECASE)` (line 483):
delete every non-overlapping block match, scanning left to right.  Each
match consumes at least the two markers (20 characters), so fuel equal
to the length of the text suffices. -/
def removeBlocks : Nat → List Char → List Char
  | 0, s => s
  | fuel + 1, s =>
    match findBlockOnce s with
    | none => s
    | some pr => s.take pr.1 ++ removeBlocks fuel (s.drop (pr.1 + 11 + pr.2 + 9))

/-- The seven known fields, in source order (line 461). -/
def knownFields : List String :=
  ["chart_type", "x_label", "y_label", "x_axis", "y_axis", "title", "sort"]

/-- The three required fields (line 478). -/
def requiredFields : List String := ["chart_type", "x_axis", "y_axis"]

/-- Python `'\n'.split` of the block body: every newline-separated
segment, empty segments included. -/
def splitNl : List Char → List (List Char)
  | [] => [[]]
  | c :: t =>
    match splitNl t with
    | [] => [[]]
    | h :: r => if c = '\n' then [] :: h :: r else (c :: h) :: r

/-- One line of the multi-line layout (lines 464-468): strip the line;
if it contains a colon, split at the first colon, key stripped and
lower-cased, value stripped, and assign into the spec dict. -/
def lineKV (spec : List (String × String)) (line : List Char) : List (String × String) :=
  let l := pyStrip line
  if l.contains ':' then
    let key := l.takeWhile (· ≠ ':')
    let value := (l.dropWhile (· ≠ ':')).drop 1
    alistSet spec ⟨(pyStrip key).map Char.toLower⟩ ⟨pyStrip value⟩
  else spec

/-- Multi-line layout (lines 463-468). -/
def multiLineSpec (b : List Char) : List (String × String) :=
  (splitNl b).foldl lineKV []

/-- Length of the greedy whitespace run at the head of `l` (`\s*`). -/
def countWs (l : List Char) : Nat := (l.takeWhile pyIsWs).length

/-- The positive-lookahead of the single-line field regex at offset `m`
of the block: end of block (`$`), a lone trailing newline (`$` without
MULTILINE), or one-or-more whitespace, one of the other field names,
optional whitespace, and a colon. -/
def lookaheadB (block : List Char) (m : Nat) (others : List String) : Bool :=
  decide (m = block.length) ||
  (decide (m + 1 = block.length) && decide (block.drop m = ['\n'])) ||
  (let w := countWs (block.drop m)
   decide (1 ≤ w) && others.any (fun f =>
     let fl := f.toList
     isPrefixCI fl (block.drop (m + w)) &&
     (let j := m + w + fl.length
      let w2 := countWs (block.drop j)
      decide ((block.drop (j + w2)).take 1 = [':']))))

/-- The lazy body `(.+?)`: the smallest `k ≥ 1` such that the lookahead
succeeds after `k` more characters, none of which is a newline. -/
def findLazyK (block : List Char) (others : List String) (rs : Nat) : Option Nat :=
  (List.range (block.length - rs)).findSome? (fun i =>
    let k := i + 1
    if ((block.drop rs).take k).all (· ≠ '\n') && lookaheadB block (rs + k) others
    then some k else none)

/-- Backtracking over the greedy `\s*` after the colon: try the longest
whitespace run first, then shorter ones, until the lazy body matches. -/
def tryWsBacktrack (block : List Char) (others : List String) (r : Nat) :
    Nat → Option (List Char)
  | 0 =>
    (findLazyK block others r).map (fun k => (block.drop r).take k)
  | w + 1 =>
    match findLazyK block others (r + (w + 1)) with
    | some k => some ((block.drop (r + (w + 1))).take k)
    | none => tryWsBacktrack block others r w

/-- Attempt the single-line field regex anchored at offset `p`: the field
name (case-insensitive), `\s*`, a colon, `\s*` (with backtracking), then
the lazy body up to the lookahead. -/
def matchFieldAt (block : List Char) (field : String) (others : List String)
    (p : Nat) : Option (List Char) :=
  let fl := field.toList
  if isPrefixCI fl (block.drop p) then
    let q := p + fl.length
    let w1 := countWs (block.drop q)
    if (block.drop (q + w1)).take 1 = [':'] then
      let r := q + w1 + 1
      tryWsBacktrack block others r (countWs (block.drop r))
    else none
  else none

/-- `re.search` of the single-line field regex: leftmost offset at which
the anchored match succeeds. -/
def extractField (block : List Char) (field : String) (others : List String) :
    Option (List Char) :=
  (List.range block.length).findSome? (matchFieldAt block field others)

/-- Single-line layout (lines 469-476): one regex per known field, the
six other field names as the stop-lookahead, captured value stripped. -/
def singleLineSpec (b : List Char) : List (String × String) :=
  knownFields.foldl (fun spec field =>
    match extractField b field (knownFields.filter (· ≠ field)) with
    | some v => alistSet spec field ⟨pyStrip v⟩
    | none => spec) []

/-- Block-body parsing: multi-line when the body contains a newline,
single-line otherwise (line 463). -/
def specOfBlock (b : List Char) : List (String × String) :=
  if b.contains '\n' then multiLineSpec b else singleLineSpec b

/-- Line 479: `all(field in spec for field in required_fields)`. -/
def requiredOk (spec : List (String × String)) : Bool :=
  requiredFields.all (fun f => alistContains spec f)

/-- `parse_viz_spec` (lines 437-488): extract the first directive block,
parse it, discard the parse unless all required fields are present, and
on success return the spec together with the text with every block
removed and stripped. -/
def parse_viz_spec (text : String) : Option (List (String × String)) × String :=
  if text = "" then (none, text)
  else
    match vizBlockOf text.toList with
    | none => (none, text)
    | some b =>
      let spec := specOfBlock b
      if requiredOk spec then
        (some spec, ⟨pyStrip (removeBlocks text.toList.length text.toList)⟩)
      else (none, text)

/-- Claim C4: when the first directive block parses to a key set missing
any of chart_type / x_axis / y_axis, `parse_viz_spec` returns `None`
together with the original text unchanged — a partially-specified
directive is never partially honored. -/
theorem parse_missing_required (text : String) (b : List Char)
    (hb : vizBlockOf text.toList = some b)
    (hmiss : alistContains (specOfBlock b) "chart_type" = false ∨
             alistContains (specOfBlock b) "x_axis" = false ∨
             alistContains (specOfBlock b) "y_axis" = false) :
    parse_viz_spec text = (none, text) := by
  have hro : requiredOk (specOfBlock b) = false := by
    rcases hmiss with h | h | h <;> simp [requiredOk, requiredFields, h]
  by_cases htext : text = ""
  · simp [parse_viz_spec, htext]
  · simp only [parse_viz_spec, if_neg htext]
    rw [hb]
    simp only [hro]
    rfl

set_option maxRecDepth 8000 in
/-- Witness for claim C4: a block that specifies only chart_type is
rejected and the text comes back byte-for-byte unchanged. -/
theorem parse_missing_required_witness :
    vizBlockOf "x [VIZ_START]chart_type: bar[VIZ_END] y".toList =
        some "chart_type: bar".toList ∧
    alistContains (specOfBlock "chart_type: bar".toList) "x_axis" = false ∧
    parse_viz_spec "x [VIZ_START]chart_type: bar[VIZ_END] y" =
      (none, "x [VIZ_START]chart_type: bar[VIZ_END] y") :=
  ⟨by decide, by decide,
    parse_missing_required "x [VIZ_START]chart_type: bar[VIZ_END] y"
      "chart_type: bar".toList (by decide) (Or.inr (Or.inl (by decide)))⟩

set_option maxRecDepth 8000 in
/-- Claim C5: the single-line directive
`answer [VIZ_START] chart_type: bar x_axis: Region y_axis: Sales [VIZ_END] more`
parses (via the other-field-name stop-lookahead) to
chart_type = bar, x_axis = Region, y_axis = Sales, and the cleaned text
is `answer  more` — block removed, surrounding text preserved. -/
theorem parse_single_line_roundtrip :
    parse_viz_spec
        "answer [VIZ_START] chart_type: bar x_axis: Region y_axis: Sales [VIZ_END] more" =
      (some [("chart_type", "bar"), ("x_axis", "Region"), ("y_axis", "Sales")],
        "answer  more") := by
  decide

set_option maxRecDepth 8000 in
/-- Claim C10, counterexample: with two directive blocks the cleaned text
is NOT the original with only the first block stripped — `re.sub` with no
count removes every match, so the second block is deleted too. -/
theorem parse_two_blocks_cx :
    ¬ (parse_viz_spec
          "start [VIZ_START]chart_type: bar x_axis: A y_axis: B[VIZ_END] mid [VIZ_START]chart_type: pie x_axis: C y_axis: D[VIZ_END] end" =
        (some [("chart_type", "bar"), ("x_axis", "A"), ("y_axis", "B")],
          "start  mid [VIZ_START]chart_type: pie x_axis: C y_axis: D[VIZ_END] end")) := by
  decide

/-- Claim C10 as amended, universally: for EVERY text whose first
directive block (`vizBlockOf`, the leftmost start marker with the
earliest later end marker — later blocks are never consulted) parses
with all required fields present, `parse_viz_spec` returns the spec of
that first block only, and the cleaned text is the original with every
delimited block (markers included) deleted by `removeBlocks` and the
surrounding whitespace trimmed.  In particular this settles every text
containing two or more blocks whose first block parses successfully. -/
theorem parse_first_block_spec_strips_all_blocks (text : String) (b : List Char)
    (hb : vizBlockOf text.toList = some b)
    (hok : requiredOk (specOfBlock b) = true) :
    parse_viz_spec text =
      (some (specOfBlock b),
        ⟨pyStrip (removeBlocks text.toList.length text.toList)⟩) := by
  have htext : ¬ text = "" := by
    intro h
    subst h
    have hnone : vizBlockOf ("" : String).toList = none := by decide
    rw [hnone] at hb
    exact Option.noConfusion hb
  simp only [parse_viz_spec, if_neg htext]
  rw [hb]
  simp only [hok, if_pos]

set_option maxRecDepth 8000 in
/-- Witness for the amended claim C10 at a concrete two-block input: the
spec comes from the first block (bar/A/B, not pie/C/D) and both blocks
are stripped from the cleaned text, which evaluates to
`start  mid  end`. -/
theorem parse_first_block_spec_strips_all_blocks_witness :
    vizBlockOf
        "start [VIZ_START]chart_type: bar x_axis: A y_axis: B[VIZ_END] mid [VIZ_START]chart_type: pie x_axis: C y_axis: D[VIZ_END] end".toList =
      some "chart_type: bar x_axis: A y_axis: B".toList ∧
    requiredOk (specOfBlock "chart_type: bar x_axis: A y_axis: B".toList) = true ∧
    parse_viz_spec
        "start [VIZ_START]chart_type: bar x_axis: A y_axis: B[VIZ_END] mid [VIZ_START]chart_type: pie x_axis: C y_axis: D[VIZ_END] end" =
      (some (specOfBlock "chart_type: bar x_axis: A y_axis: B".toList),
        ⟨pyStrip (removeBlocks
          "start [VIZ_START]chart_type: bar x_axis: A y_axis: B[VIZ_END] mid [VIZ_START]chart_type: pie x_axis: C y_axis: D[VIZ_END] end".toList.length
          "start [VIZ_START]chart_type: bar x_axis: A y_axis: B[VIZ_END] mid [VIZ_START]chart_type: pie x_axis: C y_axis: D[VIZ_END] end".toList)⟩) ∧
    specOfBlock "chart_type: bar x_axis: A y_axis: B".toList =
      [("chart_type", "bar"), ("x_axis", "A"), ("y_axis", "B")] ∧
    (⟨pyStrip (removeBlocks
          "start [VIZ_START]chart_type: bar x_axis: A y_axis: B[VIZ_END] mid [VIZ_START]chart_type: pie x_axis: C y_axis: D[VIZ_END] end".toList.length
          "start [VIZ_START]chart_type: bar x_axis: A y_axis: B[VIZ_END] mid [VIZ_START]chart_type: pie x_axis: C y_axis: D[VIZ_END] end".toList)⟩ : String) =
      "start  mid  end" :=
  ⟨by decide, by decide,
    parse_first_block_spec_strips_all_blocks
      "start [VIZ_START]chart_type: bar x_axis: A y_axis: B[VIZ_END] mid [VIZ_START]chart_type: pie x_axis: C y_axis: D[VIZ_END] end"
      "chart_type: bar x_axis: A y_axis: B".toList (by decide) (by decide),
    by decide, by decide⟩

/-!
## Pagination Engine (`create_paginated_card`, app_azure.py lines 743-759)

Only the pagination core is embedded: the computation of `total_pages`,
the clamping of the requested (possibly negative, hence `Int`) page
index, and the row slice `all_rows[start_idx:end_idx]`.  The Adaptive
Card markup wrapped around the slice is presentation, out of scope.
-/

/-- The page view computed by `create_paginated_card`. -/
structure PageView (α : Type) where
  total_pages : Nat
  page : Nat
  page_rows : List α
deriving DecidableEq

/-- Pagination core of `create_paginated_card` (lines 750-759):
`total_pages = max(1, (total_rows + page_size - 1) // page_size)`,
`page = max(0, min(page, total_pages - 1))`, and the verbatim slice
`all_rows[page * page_size : min(page * page_size + page_size, total_rows)]`. -/
def create_paginated_card {α : Type} (all_rows : List α) (page : Int)
    (page_size : Nat) : PageView α :=
  let total_rows := all_rows.length
  let total_pages := max 1 ((total_rows + page_size - 1) / page_size)
  let page' : Nat := (max 0 (min page ((total_pages : Int) - 1))).toNat
  let start_idx := page' * page_size
  let end_idx := min (start_idx + page_size) total_rows
  ⟨total_pages, page', (all_rows.drop start_idx).take (end_idx - start_idx)⟩

/-- Claim C6: pagination computes
`totalPages = max 1 ⌈totalRows / pageSize⌉` and clamps the requested
index into `[0, totalPages - 1]`; concretely, a 45-row result at page
size 20 has 3 pages, and requesting page 5 yields the same view as page
2: exactly rows 40-44. -/
theorem pagination_clamps (α : Type) (all_rows : List α) (page : Int) :
    ((create_paginated_card all_rows page 20).total_pages =
        max 1 (all_rows.length ⌈/⌉ 20) ∧
     (create_paginated_card all_rows page 20).page ≤
        (create_paginated_card all_rows page 20).total_pages - 1) ∧
    (create_paginated_card (List.range 45) 5 20 = create_paginated_card (List.range 45) 2 20 ∧
     (create_paginated_card (List.range 45) 5 20).total_pages = 3 ∧
     (create_paginated_card (List.range 45) 5 20).page_rows = [40, 41, 42, 43, 44]) := by
  refine ⟨⟨?_, ?_⟩, by decide, by decide, by decide⟩
  · rw [Nat.ceilDiv_eq_add_pred_div]
    rfl
  · simp only [create_paginated_card]
    omega

/-!
## Chart Pipeline (`ChartGenerator`, app_azure.py lines 501-729)

The data side of `ChartGenerator.generate` is embedded up to the point
where a renderer method receives `(x_data, y_data, title, x_label,
y_label)`; the matplotlib rasterization behind that point is an external
pure function per the interface boundary, so `generate` returns the
prepared `ChartPrep` (or `none`, which models both explicit `return
None` paths and exceptions swallowed by the surrounding `try/except`,
e.g. a row shorter than a resolved column index).  The one renderer with
its own data transformation relevant to the claims,
`_create_pie_chart`, has that transformation embedded separately
(`pieChartData`).

Cell values are `Value` (None, numeric, or string); `_to_numeric` parses
a string cell after deleting the characters `$ , € £ %` with a model of
Python `float()` over exact decimals (underscores, inf and nan are not
modelled; no claim touches them).
-/

/-- A scalar cell of a query-result row. -/
inductive Value where
  | null
  | num (q : ℚ)
  | str (s : String)
deriving DecidableEq, Repr

/-- Model of Python `float(s)` on decimal forms: optional surrounding
whitespace, optional sign, digits with optional fraction, optional
exponent; any other shape raises, i.e. `none`. -/
def pyFloat (l : List Char) : Option ℚ :=
  let t := pyStrip l
  let sgn := match t with
    | '+' :: r => (false, r)
    | '-' :: r => (true, r)
    | _ => (false, t)
  let neg := sgn.1
  let t1 := sgn.2
  let ip := t1.takeWhile Char.isDigit
  let r1 := t1.drop ip.length
  let fpr := match r1 with
    | '.' :: rest => (rest.takeWhile Char.isDigit, rest.drop (rest.takeWhile Char.isDigit).length)
    | _ => ([], r1)
  let fp := fpr.1
  let r2 := fpr.2
  if ip.isEmpty && fp.isEmpty then none
  else
    let mant : ℚ := (charsVal (ip ++ fp) : ℚ) / (10 : ℚ) ^ fp.length
    match r2 with
    | [] => some (if neg then -mant else mant)
    | e :: rest =>
      if e = 'e' || e = 'E' then
        let esgn := match rest with
          | '+' :: rr => (false, rr)
          | '-' :: rr => (true, rr)
          | _ => (false, rest)
        let ed := esgn.2.takeWhile Char.isDigit
        if ed.isEmpty || !(esgn.2.drop ed.length).isEmpty then none
        else
          let ev : ℤ := if esgn.1 then -(charsVal ed : ℤ) else (charsVal ed : ℤ)
          let q := mant * (10 : ℚ) ^ ev
          some (if neg then -q else q)
      else none

/-- `ChartGenerator._to_numeric` (lines 579-588): None becomes 0, ints
and floats pass through, strings are parsed after deleting currency and
percent symbols and thousands separators, unparseable values become 0. -/
def toNumeric (v : Value) : ℚ :=
  match v with
  | .null => 0
  | .num q => q
  | .str s =>
    match pyFloat (s.data.filter (fun c => !(c ∈ ['$', ',', '€', '£', '%']))) with
    | some q => q
    | none => 0

/-- Python `str.lower()` as a per-character map (ASCII and the common
unicode ranges `Char.toLower` covers). -/
def strLower (s : String) : String := ⟨s.data.map Char.toLower⟩

/-- `ChartGenerator._get_column_index` (lines 572-577): first column
whose name matches case-insensitively, else None. -/
def getColumnIndex (columns : List String) (col_name : String) : Option Nat :=
  columns.findIdx? (fun col => strLower col = strLower col_name)

/-- Stable insertion preserving the relative order of elements the
comparison considers equal, as Python `list.sort` does. -/
def stInsert {α : Type} (le : α → α → Bool) (x : α) : List α → List α
  | [] => [x]
  | y :: ys => if le y x then y :: stInsert le x ys else x :: y :: ys

/-- Stable sort (model of Python `list.sort(key=..., reverse=...)`):
each element is inserted after every already-placed element that may
precede it, so equal keys keep their original order. -/
def stableSortBy {α : Type} (le : α → α → Bool) (l : List α) : List α :=
  l.foldl (fun acc x => stInsert le x acc) []

/-- The data transformation of `ChartGenerator._create_pie_chart`
(lines 652-659): with more than `max_slices = 8` categories, sort pairs
by value descending (stable), keep the top `max_slices - 1 = 7`, and
append a synthetic "Other" slice holding the sum of the rest. -/
def pieChartData (x_data : List Value) (y_data : List ℚ) : List Value × List ℚ :=
  if x_data.length > 8 then
    let paired := stableSortBy (fun a b => decide (b.2 ≤ a.2)) (x_data.zip y_data)
    let top_items := paired.take 7
    let other_sum := ((paired.drop 7).map Prod.snd).sum
    (top_items.map Prod.fst ++ [Value.str "Other"],
     top_items.map Prod.snd ++ [other_sum])
  else (x_data, y_data)

/-- The arguments handed to the selected renderer by
`ChartGenerator.generate`. -/
structure ChartPrep where
  renderer : String
  x_data : List Value
  y_data : List ℚ
  title : String
  x_label : String
  y_label : String
deriving DecidableEq

/-- The `x_axis` field value used for column resolution (line 518). -/
def xColOf (viz_spec : List (String × String)) : String :=
  (alistGet? viz_spec "x_axis").getD ""

/-- The `y_axis` field value used for column resolution (lines 519-522):
of a comma-separated list only the first entry, stripped, is used. -/
def yColOf (viz_spec : List (String × String)) : String :=
  let y0 := (alistGet? viz_spec "y_axis").getD ""
  if y0.data.contains ',' then ⟨pyStrip (y0.data.takeWhile (· ≠ ','))⟩ else y0

/-- `ChartGenerator.generate` (lines 509-570) up to the renderer call:
resolve both axis columns case-insensitively (either unresolved: None),
build the x/y series skipping rows with a null x cell (a row shorter
than a resolved index raises IndexError, caught as None), refuse empty
series, apply the optional stable sort by y, and dispatch to one of the
five renderers, defaulting to bar. -/
def generate (viz_spec : List (String × String)) (columns : List String)
    (data_rows : List (List Value)) : Option ChartPrep :=
  let chart_type := strLower ((alistGet? viz_spec "chart_type").getD "bar")
  let x_col := xColOf viz_spec
  let y_col := yColOf viz_spec
  let title := (alistGet? viz_spec "title").getD "Chart"
  let x_label := (alistGet? viz_spec "x_label").getD x_col
  let y_label := (alistGet? viz_spec "y_label").getD y_col
  let sort_order := strLower ((alistGet? viz_spec "sort").getD "none")
  match getColumnIndex columns x_col, getColumnIndex columns y_col with
  | some x_idx, some y_idx =>
    match data_rows.mapM (fun row => row.get? x_idx) with
    | none => none
    | some x_cells =>
      let keptRows := data_rows.filter (fun row => decide (row.get? x_idx ≠ some Value.null))
      match keptRows.mapM (fun row => row.get? y_idx) with
      | none => none
      | some y_cells =>
        let x_data := x_cells.filter (fun v => decide (v ≠ Value.null))
        let y_data := y_cells.map toNumeric
        if x_data.isEmpty || y_data.isEmpty then none
        else
          let sorted :=
            if sort_order = "asc" then
              let p := stableSortBy (fun a b => decide (a.2 ≤ b.2)) (x_data.zip y_data)
              (p.map Prod.fst, p.map Prod.snd)
            else if sort_order = "desc" then
              let p := stableSortBy (fun a b => decide (b.2 ≤ a.2)) (x_data.zip y_data)
              (p.map Prod.fst, p.map Prod.snd)
            else (x_data, y_data)
          let renderer :=
            if ["bar", "line", "pie", "scatter", "area"].contains chart_type
            then chart_type else "bar"
          some ⟨renderer, sorted.1, sorted.2, title, x_label, y_label⟩
  | _, _ => none

/-- Claim C8: if either axis name (the `x_axis` value, or the first
comma-separated component of the `y_axis` value) resolves to no column
under case-insensitive exact comparison, `generate` returns `None` — it
never guesses a column, and (the embedding being total) never raises. -/
theorem generate_unresolved_column_none (viz_spec : List (String × String))
    (columns : List String) (data_rows : List (List Value))
    (h : getColumnIndex columns (xColOf viz_spec) = none ∨
         getColumnIndex columns (yColOf viz_spec) = none) :
    generate viz_spec columns data_rows = none := by
  rcases h with h | h
  · cases h2 : getColumnIndex columns (yColOf viz_spec) <;> simp [generate, h, h2]
  · cases h1 : getColumnIndex columns (xColOf viz_spec) <;> simp [generate, h, h1]

/-- Witness for claim C8: `x_axis: Nonexistent` against columns
Region/Sales yields no chart. -/
theorem generate_unresolved_column_none_witness :
    getColumnIndex ["Region", "Sales"]
        (xColOf [("chart_type", "bar"), ("x_axis", "Nonexistent"), ("y_axis", "Sales")]) =
      none ∧
    generate [("chart_type", "bar"), ("x_axis", "Nonexistent"), ("y_axis", "Sales")]
        ["Region", "Sales"] [[Value.str "A", Value.num 1]] = none :=
  ⟨by decide,
    generate_unresolved_column_none
      [("chart_type", "bar"), ("x_axis", "Nonexistent"), ("y_axis", "Sales")]
      ["Region", "Sales"] [[Value.str "A", Value.num 1]] (Or.inl (by decide))⟩

/-- Claim C7, counterexample: ten categories valued
[50,40,30,20,10,8,6,4,2,1] do NOT collapse to 7 pie slices — the code
keeps the top `max_slices - 1 = 7` categories and appends "Other", so
there are 8 slices. -/
theorem pie_ten_categories_cx :
    (pieChartData
        [.str "C1", .str "C2", .str "C3", .str "C4", .str "C5",
         .str "C6", .str "C7", .str "C8", .str "C9", .str "C10"]
        [50, 40, 30, 20, 10, 8, 6, 4, 2, 1]).1.length = 8 ∧
    ¬ (pieChartData
        [.str "C1", .str "C2", .str "C3", .str "C4", .str "C5",
         .str "C6", .str "C7", .str "C8", .str "C9", .str "C10"]
        [50, 40, 30, 20, 10, 8, 6, 4, 2, 1]).1.length = 7 := by
  decide

/-- Claim C7 as amended: ten categories valued [50,40,30,20,10,8,6,4,2,1]
render as the top SEVEN categories plus one synthetic "Other" slice
valued 7 = 4 + 2 + 1 (the sum of the remaining three after the stable
descending sort), i.e. 8 slices total under the 8-slot cap. -/
theorem pie_ten_categories_collapse :
    (pieChartData
        [.str "C1", .str "C2", .str "C3", .str "C4", .str "C5",
         .str "C6", .str "C7", .str "C8", .str "C9", .str "C10"]
        [50, 40, 30, 20, 10, 8, 6, 4, 2, 1]).1 =
      [.str "C1", .str "C2", .str "C3", .str "C4", .str "C5",
       .str "C6", .str "C7", .str "Other"] ∧
    (pieChartData
        [.str "C1", .str "C2", .str "C3", .str "C4", .str "C5",
         .str "C6", .str "C7", .str "C8", .str "C9", .str "C10"]
        [50, 40, 30, 20, 10, 8, 6, 4, 2, 1]).2 =
      [50, 40, 30, 20, 10, 8, 6, 7] := by
  constructor
  · decide
  · norm_num [pieChartData, stableSortBy, stInsert]
